import Mathlib

/-!
# Verification of the splash chunk-assembly pipeline

A shallow embedding of the Go sources of `polynite/splash` (the packed-number
codec, chunk constructor, reference-counted chunk cache, result reorder stage,
chunk codec, manifest decoder and file integrity checker), together with
theorems settling the specification claims about them.

Conventions:
* Go strings are modelled as `List Char` (`Str`), Go byte slices as `List Nat`
  with each element intended to be `< 256`.
* Go machine integers are modelled as `Nat`/`Int` with explicit `% 2^32`
  where 32-bit wrap-around matters.
* A Go function that can panic is modelled with an `Option`/dedicated
  constructor whose `none`/`panicked` value marks the panic.
* SHA-1 and zlib inflation live outside the repository; functions that use
  them take them as explicit parameters.
-/

set_option autoImplicit false

namespace Splash

/-- Go strings, byte for byte (all strings in play are ASCII). -/
abbrev Str := List Char

/-- Outcome of `readPackedData` (chunk.go): a normal byte-slice return,
the `nil` slice returned when `strconv.ParseUint` fails on a triplet, or a
runtime panic (slice bounds violation when fewer than 3 characters remain). -/
inductive PackedResult where
  | ok (bytes : List Nat)
  | nilSlice
  | panicked
deriving DecidableEq

/-- Go `strconv.ParseUint(s, 10, 16)` applied to a 3-character slice: succeeds
exactly when all three characters are decimal digits (a 3-digit value is at
most 999, inside the 16-bit range, so no range error can occur; base 10
forbids signs and underscores). -/
def parseUint3 (a b c : Char) : Option Nat :=
  if a.isDigit && b.isDigit && c.isDigit then
    some ((a.toNat - 48) * 100 + (b.toNat - 48) * 10 + (c.toNat - 48))
  else none

/-- `readPackedData` (chunk.go:110-123). Walks the string three characters at
a time; `byte(num)` truncates each parsed value modulo 256. A parse failure
returns the `nil` slice; a trailing group of fewer than 3 characters hits the
out-of-range slice `packed[i:i+3]` and panics. -/
def readPackedData : Str → PackedResult
  | [] => .ok []
  | a :: b :: c :: rest =>
    match parseUint3 a b c with
    | none => .nilSlice
    | some num =>
      match readPackedData rest with
      | .ok out => .ok (num % 256 :: out)
      | r => r
  | _ => .panicked

/-- `readPackedUint32` (chunk.go:125-127): `binary.LittleEndian.Uint32` of the
decoded bytes. `Uint32` indexes the first four bytes, so a `nil` slice or a
result shorter than 4 bytes panics (`none`). -/
def readPackedUint32 (s : Str) : Option Nat :=
  match readPackedData s with
  | .ok (b0 :: b1 :: b2 :: b3 :: _) =>
      some (b0 + 256 * b1 + 65536 * b2 + 16777216 * b3)
  | _ => none

/-- The zero-padded 3-digit decimal rendering of one byte, as described by the
packed round-trip property (spec §8). -/
def encodeByte (b : Nat) : Str :=
  [Char.ofNat (48 + b / 100), Char.ofNat (48 + b / 10 % 10), Char.ofNat (48 + b % 10)]

/-- The string formed by concatenating each byte of a sequence as a
zero-padded 3-digit decimal (spec §8, packed round-trip input). -/
def packedEncode : List Nat → Str
  | [] => []
  | b :: rest => encodeByte b ++ packedEncode rest

/-- Modelled from the spec: the claim's reading of `file_size` as the full
unsigned 64-bit little-endian value of the decoded packed bytes (spec §3:
"`file_size`: unsigned 64-bit expected on-disk (compressed) size").  Used only
to compare the claimed value against what `NewChunk` actually computes. -/
def specPackedUint64 (s : Str) : Option Nat :=
  match readPackedData s with
  | .ok (b0 :: b1 :: b2 :: b3 :: b4 :: b5 :: b6 :: b7 :: _) =>
      some (b0 + 256 * b1 + 65536 * b2 + 16777216 * b3 +
            4294967296 * b4 + 1099511627776 * b5 +
            281474976710656 * b6 + 72057594037927936 * b7)
  | _ => none

/-- One hexadecimal digit as `encoding/hex` renders it (lowercase). -/
def hexDigit (n : Nat) : Char :=
  if n < 10 then Char.ofNat (48 + n) else Char.ofNat (87 + n)

/-- Go `hex.EncodeToString`: two lowercase hex digits per byte. -/
def hexEncode : List Nat → Str
  | [] => []
  | b :: rest => hexDigit (b / 16) :: hexDigit (b % 16) :: hexEncode rest

/-- ASCII uppercase of one character (`strings.ToUpper` on ASCII input). -/
def toUpperChar (c : Char) : Char :=
  if 97 ≤ c.toNat ∧ c.toNat ≤ 122 then Char.ofNat (c.toNat - 32) else c

/-- Go `strings.ToUpper` restricted to ASCII strings. -/
def goToUpper (s : Str) : Str := s.map toUpperChar

/-- Digit run for `strconv.Atoi`: all characters must be decimal digits and
the run must be non-empty. -/
def parseDigits (s : Str) : Option Nat :=
  if s ≠ [] ∧ ∀ c ∈ s, c.isDigit then
    some (s.foldl (fun acc c => acc * 10 + (c.toNat - 48)) 0)
  else none

/-- Go `strconv.Atoi`: optional sign followed by digits; fails on anything
else or on 64-bit overflow. -/
def goAtoi : Str → Option Int
  | '-' :: rest =>
      match parseDigits rest with
      | some n => if n ≤ 9223372036854775808 then some (-(n : Int)) else none
      | none => none
  | '+' :: rest =>
      match parseDigits rest with
      | some n => if n ≤ 9223372036854775807 then some (n : Int) else none
      | none => none
  | s =>
      match parseDigits s with
      | some n => if n ≤ 9223372036854775807 then some (n : Int) else none
      | none => none

/-- `Chunk` (chunk.go:15-21). `FileSize` is Go `int64`. -/
structure Chunk where
  GUID : Str
  Hash : Str
  Sha : Str
  DataGroup : Int
  FileSize : Int
deriving DecidableEq

/-- `NewChunk` (chunk.go:82-98).  `log.Fatalf` on a bad data group and the
panics reachable through `readPackedData`/`readPackedUint32` are modelled as
`none`.  The helper `reverse` is not among the provided sources; modelled from
the spec (§4.1: the hash is byte-reversed after decoding) as list reversal. -/
def NewChunk (guid hash sha dataGroup fileSize : Str) : Option Chunk :=
  match goAtoi dataGroup with
  | none => none
  | some dg =>
    match readPackedData hash with
    | .panicked => none
    | .nilSlice =>
        match readPackedUint32 fileSize with
        | none => none
        | some fs =>
            some ⟨guid, goToUpper (hexEncode ([] : List Nat).reverse), sha, dg, Int.ofNat fs⟩
    | .ok parsedHash =>
        match readPackedUint32 fileSize with
        | none => none
        | some fs =>
            some ⟨guid, goToUpper (hexEncode parsedHash.reverse), sha, dg, Int.ofNat fs⟩

/-! ## Packed-number codec: claims C4, C5, C8 -/

/-- A decimal digit character built from a digit value keeps that value. -/
theorem digitChar_spec (d : Nat) (h : d < 10) :
    (Char.ofNat (48 + d)).isDigit = true ∧ (Char.ofNat (48 + d)).toNat = 48 + d := by
  interval_cases d <;> exact ⟨by decide, by decide⟩

/-- C4 counterexample: the claim says the decoder fails whenever a triplet
denotes a value outside 000-255, yet `readPackedData "999"` succeeds and
returns the wrapped byte 231 (= 999 % 256); moreover a length that is not a
multiple of 3 produces a slice-bounds panic, not an error value. -/
theorem claim_C4_counterexample :
    readPackedData ['9', '9', '9'] = PackedResult.ok [231] ∧
    readPackedData ['9'] = PackedResult.panicked := by
  decide

/-- C4 (amended): `readPackedData` succeeds (returns a byte slice) exactly
when the input length is a multiple of 3 and every character is a decimal
digit; out-of-range triplets such as 999 are accepted and truncated modulo
256, a triplet with a non-digit yields the nil slice, and a trailing group
shorter than 3 characters panics. -/
theorem claim_C4 (s : Str) :
    (∃ bs, readPackedData s = PackedResult.ok bs) ↔
      (s.length % 3 = 0 ∧ ∀ c ∈ s, c.isDigit) := by
  induction s using readPackedData.induct
  case case1 => simp [readPackedData]
  case case2 a b c rest hparse =>
    simp only [readPackedData, hparse]
    constructor
    · rintro ⟨bs, h⟩; cases h
    · rintro ⟨hlen, hdig⟩
      have ha : a.isDigit := hdig a (by simp)
      have hb : b.isDigit := hdig b (by simp)
      have hc : c.isDigit := hdig c (by simp)
      simp [parseUint3, ha, hb, hc] at hparse
  case case3 a b c rest num hparse out hrest ih =>
    have hd : a.isDigit ∧ b.isDigit ∧ c.isDigit := by
      unfold parseUint3 at hparse
      split_ifs at hparse with h
      simp only [Bool.and_eq_true] at h
      exact ⟨h.1.1, h.1.2, h.2⟩
    simp only [readPackedData, hparse, hrest]
    constructor
    · intro _
      have hr := ih.mp ⟨out, hrest⟩
      refine ⟨?_, ?_⟩
      · simp only [List.length_cons]; omega
      · intro x hx
        simp only [List.mem_cons] at hx
        rcases hx with rfl | rfl | rfl | hx
        · exact hd.1
        · exact hd.2.1
        · exact hd.2.2
        · exact hr.2 x hx
    · intro _; exact ⟨num % 256 :: out, rfl⟩
  case case4 a b c rest num hparse hnotok ih =>
    simp only [readPackedData, hparse]
    constructor
    · rintro ⟨bs, h⟩
      rcases hrest : readPackedData rest with out | _ | _
      · exact absurd hrest (fun h' => hnotok _ h')
      · rw [hrest] at h; cases h
      · rw [hrest] at h; cases h
    · rintro ⟨hlen, hdig⟩
      have hex : ∃ bs, readPackedData rest = PackedResult.ok bs := by
        refine ih.mpr ⟨?_, ?_⟩
        · simp only [List.length_cons] at hlen; omega
        · intro x hx; exact hdig x (by simp [hx])
      rcases hex with ⟨bs, h⟩
      exact absurd h (hnotok bs)
  case case5 t h1 h2 =>
    rcases t with _ | ⟨a, _ | ⟨b, _ | ⟨c, rest⟩⟩⟩
    · exact absurd rfl h1
    · constructor
      · rintro ⟨bs, h⟩; cases h
      · rintro ⟨hlen, -⟩; simp at hlen
    · constructor
      · rintro ⟨bs, h⟩; cases h
      · rintro ⟨hlen, -⟩; simp at hlen
    · exact absurd rfl (h2 a b c rest)

/-- C5: packed round-trip.  Decoding the string formed by concatenating each
byte of `bs` as a zero-padded 3-digit decimal yields exactly `bs`. -/
theorem claim_C5 (bs : List Nat) (h : ∀ b ∈ bs, b < 256) :
    readPackedData (packedEncode bs) = PackedResult.ok bs := by
  induction bs with
  | nil => rfl
  | cons b rest ih =>
    have hb : b < 256 := h b (by simp)
    have h1 := digitChar_spec (b / 100) (by omega)
    have h2 := digitChar_spec (b / 10 % 10) (by omega)
    have h3 := digitChar_spec (b % 10) (by omega)
    have hrest := ih (fun x hx => h x (by simp [hx]))
    show readPackedData (encodeByte b ++ packedEncode rest) = PackedResult.ok (b :: rest)
    have he : encodeByte b ++ packedEncode rest =
        Char.ofNat (48 + b / 100) :: Char.ofNat (48 + b / 10 % 10) :: Char.ofNat (48 + b % 10)
          :: packedEncode rest := rfl
    rw [he]
    simp only [readPackedData, parseUint3, h1.1, h1.2, h2.1, h2.2, h3.1, h3.2, Bool.and_self,
      if_pos, hrest]
    have hv : (48 + b / 100 - 48) * 100 + (48 + b / 10 % 10 - 48) * 10 + (48 + b % 10 - 48) = b := by
      omega
    rw [hv]
    have hm : b % 256 = b := Nat.mod_eq_of_lt hb
    rw [hm]

/-- C5 witness: the round-trip at the concrete byte sequence `[72, 0, 255]`. -/
theorem claim_C5_witness :
    (∀ b ∈ [72, 0, 255], b < 256) ∧
    readPackedData (packedEncode [72, 0, 255]) = PackedResult.ok [72, 0, 255] :=
  ⟨by decide, claim_C5 [72, 0, 255] (by decide)⟩

/-- C8 counterexample: for the packed file-size string encoding the bytes
`[0,0,0,0,1,0,0,0]` (the 64-bit little-endian value 2^32), the chunk built by
`NewChunk` carries `FileSize = 0`, not the full 64-bit value 4294967296: the
code decodes only the first four bytes via `readPackedUint32`. -/
theorem claim_C8_counterexample :
    (NewChunk [] [] [] ['0'] "000000000000001000000000".toList).map Chunk.FileSize = some 0 ∧
    specPackedUint64 "000000000000001000000000".toList = some 4294967296 := by
  decide

/-- C8 (amended): whenever `NewChunk` succeeds, the chunk's `FileSize` is the
little-endian 32-bit value of the *first four* decoded bytes of the packed
file-size string (then widened to `int64`); bytes beyond the fourth are
ignored, so sizes at or above 2^32 are truncated. -/
theorem claim_C8 (guid hash sha dg fs : Str) (c : Chunk)
    (h : NewChunk guid hash sha dg fs = some c) :
    ∃ b0 b1 b2 b3 rest, readPackedData fs = PackedResult.ok (b0 :: b1 :: b2 :: b3 :: rest) ∧
      c.FileSize = Int.ofNat (b0 + 256 * b1 + 65536 * b2 + 16777216 * b3) := by
  unfold NewChunk at h
  rcases hdg : goAtoi dg with _ | dgv <;> rw [hdg] at h
  · cases h
  rcases hh : readPackedData hash with bs | _ | _ <;> rw [hh] at h
  all_goals first
  | cases h
  | (rcases hfs : readPackedUint32 fs with _ | fsv <;> rw [hfs] at h
     · cases h
     · unfold readPackedUint32 at hfs
       rcases hf : readPackedData fs with bs' | _ | _ <;> rw [hf] at hfs
       · rcases bs' with _ | ⟨b0, _ | ⟨b1, _ | ⟨b2, _ | ⟨b3, rest⟩⟩⟩⟩ <;> simp at hfs
         refine ⟨b0, b1, b2, b3, rest, rfl, ?_⟩
         cases h
         simp [← hfs]
       · cases hfs
       · cases hfs)

/-- C8 witness: the amended statement at the packed string for bytes
`[1, 0, 0, 0]`, whose chunk has `FileSize = 1`. -/
theorem claim_C8_witness :
    ∃ b0 b1 b2 b3 rest,
      readPackedData "001000000000".toList = PackedResult.ok (b0 :: b1 :: b2 :: b3 :: rest) ∧
      (Chunk.mk [] [] [] 0 1).FileSize = Int.ofNat (b0 + 256 * b1 + 65536 * b2 + 16777216 * b3) :=
  claim_C8 [] [] [] ['0'] "001000000000".toList ⟨[], [], [], 0, 1⟩ (by decide)

/-! ## Reference-counted chunk cache: claim C2

The process-wide state consists of `chunkCache : map[string][]byte` and
`chunkParentCount : map[string]int`.  A Go map read of a missing key yields
the zero value, so the refcount map is modelled as a total function with
default 0 and the bytes map as a function into `Option`. -/

/-- The three operations touching the cache: manifest ingestion increments
the refcount (`chunkParentCount[guid]++`), the worker's store section inserts
bytes when the refcount is above 1, and `chunkUsed` releases a reference. -/
inductive CacheOp where
  | register (guid : Str)
  | store (guid : Str) (data : List Nat)
  | release (guid : Str)

/-- The shared cache state. -/
structure CacheState where
  chunkCache : Str → Option (List Nat)
  chunkParentCount : Str → Int

/-- Pointwise function update, modelling a Go map write. -/
def mapWrite {α : Type} (m : Str → α) (k : Str) (v : α) : Str → α :=
  fun k' => if k' = k then v else m k'

/-- One cache operation:
* `register g`: `chunkParentCount[g]++` (main, chunk ingestion);
* `store g data`: `if chunkParentCount[g] > 1 { chunkCache[g] = data }`
  (`chunkWorker` store section);
* `release g`: `chunkParentCount[g]--; if chunkParentCount[g] < 1 {
  delete(chunkCache, g) }` (`chunkUsed`). -/
def applyCacheOp (st : CacheState) : CacheOp → CacheState
  | .register g =>
      { st with chunkParentCount := mapWrite st.chunkParentCount g (st.chunkParentCount g + 1) }
  | .store g data =>
      if st.chunkParentCount g > 1 then
        { st with chunkCache := mapWrite st.chunkCache g (some data) }
      else st
  | .release g =>
      { chunkParentCount := mapWrite st.chunkParentCount g (st.chunkParentCount g - 1),
        chunkCache :=
          if st.chunkParentCount g - 1 < 1 then mapWrite st.chunkCache g none
          else st.chunkCache }

/-- Both maps start empty. -/
def initCacheState : CacheState := ⟨fun _ => none, fun _ => 0⟩

/-- Running a whole operation sequence from the initial state. -/
def runCacheOps (ops : List CacheOp) : CacheState :=
  ops.foldl applyCacheOp initCacheState

/-- The cache invariant: every GUID holding bytes has refcount at least 1. -/
def CacheInv (st : CacheState) : Prop :=
  ∀ g, st.chunkCache g ≠ none → 1 ≤ st.chunkParentCount g

/-- Each operation preserves the cache invariant. -/
theorem applyCacheOp_inv (st : CacheState) (op : CacheOp) (h : CacheInv st) :
    CacheInv (applyCacheOp st op) := by
  cases op with
  | register g' =>
    intro g hc
    simp only [applyCacheOp, mapWrite] at hc ⊢
    by_cases hg : g = g'
    · subst hg
      simp only [if_pos rfl]
      have := h g hc
      omega
    · simp only [if_neg hg]
      exact h g hc
  | store g' data =>
    intro g
    simp only [applyCacheOp]
    split_ifs with hgt
    · simp only [mapWrite]
      by_cases hg : g = g'
      · subst hg
        intro _
        omega
      · simp only [if_neg hg]
        exact h g
    · exact h g
  | release g' =>
    intro g hc
    simp only [applyCacheOp] at hc ⊢
    by_cases hg : g = g'
    · subst hg
      split_ifs at hc with hlt
      · simp [mapWrite] at hc
      · simp only [mapWrite, if_pos rfl]
        omega
    · simp only [mapWrite, if_neg hg]
      split_ifs at hc with hlt
      · simp only [mapWrite, if_neg hg] at hc
        exact h g hc
      · exact h g hc

/-- The invariant is preserved along any fold of cache operations. -/
theorem cacheInv_foldl (ops : List CacheOp) (st0 : CacheState) (h0 : CacheInv st0) :
    CacheInv (ops.foldl applyCacheOp st0) := by
  induction ops generalizing st0 with
  | nil => exact h0
  | cons op rest ih => exact ih (applyCacheOp st0 op) (applyCacheOp_inv st0 op h0)

/-- C2: the chunk cache never holds a bytes entry whose refcount is below 1.
After any sequence of register/store/release operations starting from the
empty maps, every GUID present in `chunkCache` has `chunkParentCount ≥ 1`:
the store step only inserts when the refcount exceeds 1, and `chunkUsed`
deletes the bytes whenever the decremented count falls below 1. -/
theorem claim_C2 (ops : List CacheOp) (g : Str)
    (h : (runCacheOps ops).chunkCache g ≠ none) :
    1 ≤ (runCacheOps ops).chunkParentCount g :=
  cacheInv_foldl ops initCacheState (fun _ hg => absurd rfl hg) g h

/-- C2 witness: after two registrations and a store, the GUID `"A"` has
cached bytes and refcount 2 ≥ 1. -/
theorem claim_C2_witness :
    (runCacheOps [.register ['A'], .register ['A'], .store ['A'] [1]]).chunkCache ['A'] ≠ none ∧
    1 ≤ (runCacheOps [.register ['A'], .register ['A'],
        .store ['A'] [1]]).chunkParentCount ['A'] :=
  ⟨by decide, claim_C2 [.register ['A'], .register ['A'], .store ['A'] [1]] ['A'] (by decide)⟩


/-! ## Assembly pipeline reorder stage: claim C1

The reorder goroutine (main, part_003:694-709) buffers out-of-order
`ChunkJobResult`s in `resultsBuffer : map[int]ChunkJobResult` and forwards
the result for `chunkJobs[0].ID` whenever it is available, popping
`chunkJobs`.  The buffer is an association list with Go map semantics
(insert overwrites, lookup finds the live entry). -/

/-- `ChunkPart` (chunk.go:24-27). -/
structure ChunkPart where
  Offset : Nat
  Size : Nat
deriving DecidableEq

/-- `ChunkJob` (chunk.go:30-34); `ID` is the loop index assigned by main. -/
structure ChunkJob where
  ID : Nat
  Chunk : Chunk
  Part : ChunkPart
deriving DecidableEq

/-- `ChunkJobResult` (chunk.go:37-40); the reader type is abstract. -/
structure ChunkJobResult (ρ : Type) where
  Job : ChunkJob
  Reader : ρ

variable {ρ : Type}

/-- Go map read `resultsBuffer[k]` with its presence bit. -/
def bufFind (buf : List (Nat × ChunkJobResult ρ)) (k : Nat) : Option (ChunkJobResult ρ) :=
  (buf.find? (fun p => p.1 == k)).map (·.2)

/-- Go `delete(resultsBuffer, k)`. -/
def bufErase (buf : List (Nat × ChunkJobResult ρ)) (k : Nat) : List (Nat × ChunkJobResult ρ) :=
  buf.filter (fun p => p.1 != k)

/-- Go map write `resultsBuffer[k] = v` (overwrites any previous entry). -/
def bufInsert (buf : List (Nat × ChunkJobResult ρ)) (k : Nat) (v : ChunkJobResult ρ) :
    List (Nat × ChunkJobResult ρ) :=
  (k, v) :: bufErase buf k

/-- The set of keys currently in the buffer. -/
def bufKeys (buf : List (Nat × ChunkJobResult ρ)) : List Nat := buf.map Prod.fst

/-- The `goto loop` drain (part_003:699-707): while the pending job list is
non-empty and the buffer holds the head job's id, forward that result, pop
the job and delete the entry. -/
def drainLoop :
    List ChunkJob → List (Nat × ChunkJobResult ρ) →
      List (ChunkJobResult ρ) × List ChunkJob × List (Nat × ChunkJobResult ρ)
  | [], buf => ([], [], buf)
  | j :: rest, buf =>
    match bufFind buf j.ID with
    | some res =>
      let t := drainLoop rest (bufErase buf res.Job.ID)
      (res :: t.1, t.2.1, t.2.2)
    | none => ([], j :: rest, buf)

/-- One iteration of `for result := range results`: insert the arrival into
the buffer, then drain. -/
def reorderStep (st : List ChunkJob × List (Nat × ChunkJobResult ρ)) (result : ChunkJobResult ρ) :
    List (ChunkJobResult ρ) × List ChunkJob × List (Nat × ChunkJobResult ρ) :=
  drainLoop st.1 (bufInsert st.2 result.Job.ID result)

/-- The reorder goroutine over a whole arrival sequence, collecting
everything sent to the `orderedResults` channel. -/
def reorderRun :
    List (ChunkJobResult ρ) → List ChunkJob × List (Nat × ChunkJobResult ρ) →
      List (ChunkJobResult ρ)
  | [], _ => []
  | r :: rs, st =>
    let t := reorderStep st r
    t.1 ++ reorderRun rs (t.2.1, t.2.2)

/-- The sequence delivered on the `orderedResults` channel when the pending
list is the jobs pushed by main and the buffer starts empty. -/
def orderedResults (jobs : List ChunkJob) (arrivals : List (ChunkJobResult ρ)) :
    List (ChunkJobResult ρ) :=
  reorderRun arrivals (jobs, [])

/-- Buffer well-formedness: every entry is stored under its own job id
(insertions always use `result.Job.ID` as the key). -/
def BufWF (buf : List (Nat × ChunkJobResult ρ)) : Prop :=
  ∀ p ∈ buf, p.2.Job.ID = p.1

/-- A buffer lookup misses exactly when the key is absent. -/
theorem bufFind_eq_none (buf : List (Nat × ChunkJobResult ρ)) (k : Nat) :
    bufFind buf k = none ↔ k ∉ bufKeys buf := by
  unfold bufFind bufKeys
  simp only [Option.map_eq_none', List.find?_eq_none, List.mem_map]
  constructor
  · rintro h ⟨p, hp, rfl⟩
    exact (by simpa using h p hp)
  · intro h p hp
    simp only [beq_iff_eq]
    exact fun he => h ⟨p, hp, he⟩

/-- A successful buffer lookup exposes its entry. -/
theorem bufFind_some (buf : List (Nat × ChunkJobResult ρ)) (k : Nat) (r : ChunkJobResult ρ)
    (h : bufFind buf k = some r) : (k, r) ∈ buf := by
  unfold bufFind at h
  rcases Option.map_eq_some'.mp h with ⟨p, hp, rfl⟩
  have hk : p.1 = k := by simpa using List.find?_some hp
  have hm := List.mem_of_find?_eq_some hp
  rw [← hk]
  exact hm

/-- Deleting a key filters it out of the key list. -/
theorem bufKeys_erase (buf : List (Nat × ChunkJobResult ρ)) (k : Nat) :
    bufKeys (bufErase buf k) = (bufKeys buf).filter (fun x => x != k) := by
  unfold bufKeys bufErase
  induction buf with
  | nil => rfl
  | cons p rest ih =>
    by_cases hp : p.1 = k
    · simp [hp, ih]
    · simp only [List.filter_cons, List.map_cons]
      have h1 : (p.1 != k) = true := by simpa using hp
      simp [h1, ih]

/-- Deleting an absent key leaves the buffer unchanged. -/
theorem bufErase_of_not_mem (buf : List (Nat × ChunkJobResult ρ)) (k : Nat)
    (h : k ∉ bufKeys buf) : bufErase buf k = buf := by
  unfold bufErase
  refine List.filter_eq_self.mpr ?_
  intro p hp
  have : p.1 ≠ k := fun he => h (he ▸ List.mem_map_of_mem Prod.fst hp)
  simpa using this

/-- Removing one occurrence of a present key from a duplicate-free list is a
permutation-preserving split. -/
theorem filterNe_perm (l : List Nat) (k : Nat) (hnd : l.Nodup) (hk : k ∈ l) :
    l.Perm (k :: l.filter (fun x => x != k)) := by
  induction l with
  | nil => cases hk
  | cons a t ih =>
    by_cases ha : a = k
    · subst ha
      have hnt : a ∉ t := (List.nodup_cons.mp hnd).1
      have : t.filter (fun x => x != a) = t := by
        refine List.filter_eq_self.mpr ?_
        intro x hx
        have : x ≠ a := fun he => hnt (he ▸ hx)
        simpa using this
      simp [this]
    · have hk' : k ∈ t := by
        rcases List.mem_cons.mp hk with h | h
        · exact absurd h.symm ha
        · exact h
      have hperm := ih (List.nodup_cons.mp hnd).2 hk'
      have hfa : (a != k) = true := by simpa using ha
      have hfc : (a :: t).filter (fun x => x != k) = a :: t.filter (fun x => x != k) := by
        simp [List.filter_cons, hfa]
      rw [hfc]
      exact List.Perm.trans (hperm.cons a) (List.Perm.swap k a _)

/-- The drain emits a prefix of the pending jobs (exactly those whose results
are buffered), removes precisely those keys from the buffer, and stops with
the new head (if any) absent from the buffer. -/
theorem drainLoop_spec (pend : List ChunkJob) (buf : List (Nat × ChunkJobResult ρ))
    (hwf : BufWF buf) (hnd : (bufKeys buf).Nodup) :
    ∃ p q out buf2,
      pend = p ++ q ∧
      drainLoop pend buf = (out, q, buf2) ∧
      out.map (fun r => r.Job.ID) = p.map ChunkJob.ID ∧
      (↑(bufKeys buf) : Multiset Nat) = ↑(p.map ChunkJob.ID) + ↑(bufKeys buf2) ∧
      BufWF buf2 ∧ (bufKeys buf2).Nodup ∧
      (∀ j q', q = j :: q' → bufFind buf2 j.ID = none) := by
  induction pend generalizing buf with
  | nil =>
    exact ⟨[], [], [], buf, rfl, rfl, rfl, by simp, hwf, hnd, fun j q' h => by cases h⟩
  | cons j rest ih =>
    cases hfind : bufFind buf j.ID with
    | none =>
      refine ⟨[], j :: rest, [], buf, rfl, ?_, rfl, by simp, hwf, hnd, ?_⟩
      · simp [drainLoop, hfind]
      · rintro j' q' h
        cases h
        exact hfind
    | some res =>
      have hmem : (j.ID, res) ∈ buf := bufFind_some buf j.ID res hfind
      have hid : res.Job.ID = j.ID := hwf _ hmem
      have hkmem : j.ID ∈ bufKeys buf := List.mem_map_of_mem Prod.fst hmem
      have hwf' : BufWF (bufErase buf res.Job.ID) := fun p hp =>
        hwf p (List.mem_of_mem_filter hp)
      have hnd' : (bufKeys (bufErase buf res.Job.ID)).Nodup := by
        rw [hid, bufKeys_erase]
        exact hnd.filter _
      obtain ⟨p', q', out', buf2, hsplit, hdrain, hout, hkeyms, hwf2, hnd2, hnf2⟩ :=
        ih (bufErase buf res.Job.ID) hwf' hnd'
      refine ⟨j :: p', q', res :: out', buf2, by simp [hsplit], ?_, ?_, ?_, hwf2, hnd2, hnf2⟩
      · simp [drainLoop, hfind, hdrain]
      · simp [hout, hid]
      · have hperm := filterNe_perm (bufKeys buf) j.ID hnd hkmem
        have hcoe : (↑(bufKeys buf) : Multiset Nat) =
            ↑(j.ID :: (bufKeys buf).filter (fun x => x != j.ID)) :=
          Multiset.coe_eq_coe.mpr hperm
        rw [hcoe]
        have herase : bufKeys (bufErase buf res.Job.ID) =
            (bufKeys buf).filter (fun x => x != j.ID) := by
          rw [hid, bufKeys_erase]
        rw [herase] at hkeyms
        rw [← Multiset.cons_coe, hkeyms]
        simp [List.map_cons, ← Multiset.cons_coe, Multiset.cons_add]

/-- Main reorder invariant: if the ids still to arrive plus the buffered ids
are exactly the pending ids (each once), and the head of the pending list is
not yet buffered, then the run emits exactly the pending ids in order. -/
theorem reorderRun_spec (arrivals : List (ChunkJobResult ρ)) (pend : List ChunkJob)
    (buf : List (Nat × ChunkJobResult ρ))
    (hwf : BufWF buf) (hndk : (bufKeys buf).Nodup) (hndp : (pend.map ChunkJob.ID).Nodup)
    (hperm : (↑(arrivals.map (fun r => r.Job.ID)) + ↑(bufKeys buf) : Multiset Nat) =
      ↑(pend.map ChunkJob.ID))
    (hnf : ∀ j q', pend = j :: q' → bufFind buf j.ID = none) :
    (reorderRun arrivals (pend, buf)).map (fun r => r.Job.ID) = pend.map ChunkJob.ID := by
  induction arrivals generalizing pend buf with
  | nil =>
    cases pend with
    | nil => rfl
    | cons j q =>
      exfalso
      have hm : j.ID ∈ (↑((j :: q).map ChunkJob.ID) : Multiset Nat) := by simp
      rw [← hperm] at hm
      rw [Multiset.mem_add] at hm
      have hkm : j.ID ∈ bufKeys buf := by
        rcases hm with hm | hm
        · simp at hm
        · simpa using hm
      exact (bufFind_eq_none buf j.ID).mp (hnf j q rfl) hkm
  | cons r rs ih =>
    have hndpMs : (↑(pend.map ChunkJob.ID) : Multiset Nat).Nodup := by exact_mod_cast hndp
    have hLHSnd : ((↑((r :: rs).map fun x => x.Job.ID) : Multiset Nat) + ↑(bufKeys buf)).Nodup := by
      rw [hperm]; exact hndpMs
    have hkNotKeys : r.Job.ID ∉ bufKeys buf := by
      have hdisj := (Multiset.nodup_add.mp hLHSnd).2.2
      have hmem : r.Job.ID ∈ (↑((r :: rs).map fun x => x.Job.ID) : Multiset Nat) := by simp
      have := Multiset.disjoint_left.mp hdisj hmem
      simpa using this
    have herase : bufErase buf r.Job.ID = buf := bufErase_of_not_mem _ _ hkNotKeys
    have hkeys' : bufKeys (bufInsert buf r.Job.ID r) = r.Job.ID :: bufKeys buf := by
      show bufKeys ((r.Job.ID, r) :: bufErase buf r.Job.ID) = _
      rw [herase]
      rfl
    have hwf' : BufWF (bufInsert buf r.Job.ID r) := by
      intro p hp
      rcases List.mem_cons.mp hp with rfl | hp'
      · rfl
      · exact hwf p (List.mem_of_mem_filter hp')
    have hnd' : (bufKeys (bufInsert buf r.Job.ID r)).Nodup := by
      rw [hkeys']
      exact List.nodup_cons.mpr ⟨hkNotKeys, hndk⟩
    obtain ⟨p, q, out, buf2, hsplit, hdrain, hout, hkeyms, hwf2, hnd2, hnf2⟩ :=
      drainLoop_spec pend (bufInsert buf r.Job.ID r) hwf' hnd'
    have hrun : reorderRun (r :: rs) (pend, buf) = out ++ reorderRun rs (q, buf2) := by
      simp [reorderRun, reorderStep, hdrain]
    have hpq : pend.map ChunkJob.ID = p.map ChunkJob.ID ++ q.map ChunkJob.ID := by
      rw [hsplit, List.map_append]
    have hndq : (q.map ChunkJob.ID).Nodup := by
      rw [hpq] at hndp
      exact hndp.of_append_right
    -- multiset bookkeeping: cancel the drained prefix
    rw [hkeys'] at hkeyms
    have hkeyms' : ({r.Job.ID} : Multiset Nat) + ↑(bufKeys buf) =
        ↑(p.map ChunkJob.ID) + ↑(bufKeys buf2) := by
      rw [Multiset.singleton_add, Multiset.cons_coe]
      exact hkeyms
    have hperm' : ({r.Job.ID} : Multiset Nat) + ↑(rs.map fun x => x.Job.ID) + ↑(bufKeys buf) =
        ↑(p.map ChunkJob.ID) + ↑(q.map ChunkJob.ID) := by
      rw [Multiset.singleton_add]
      have hmc : ((r :: rs).map fun x => x.Job.ID) = r.Job.ID :: (rs.map fun x => x.Job.ID) := by
        simp
      rw [hmc] at hperm
      rw [← Multiset.cons_coe] at hperm
      rw [Multiset.cons_add]
      have : (r.Job.ID ::ₘ ↑(rs.map fun x => x.Job.ID)) + ↑(bufKeys buf) =
          r.Job.ID ::ₘ (↑(rs.map fun x => x.Job.ID) + ↑(bufKeys buf)) := by
        rw [Multiset.cons_add]
      rw [← this, hperm, hpq]
      exact_mod_cast rfl
    have hperm2 : (↑(rs.map fun x => x.Job.ID) + ↑(bufKeys buf2) : Multiset Nat) =
        ↑(q.map ChunkJob.ID) := by
      have h3 : ↑(p.map ChunkJob.ID) + (↑(rs.map fun x => x.Job.ID) + ↑(bufKeys buf2)) =
          (↑(p.map ChunkJob.ID) : Multiset Nat) + ↑(q.map ChunkJob.ID) := by
        calc (↑(p.map ChunkJob.ID) : Multiset Nat) + (↑(rs.map fun x => x.Job.ID) + ↑(bufKeys buf2))
            = (↑(p.map ChunkJob.ID) + ↑(bufKeys buf2)) + ↑(rs.map fun x => x.Job.ID) := by abel
          _ = ({r.Job.ID} + ↑(bufKeys buf)) + ↑(rs.map fun x => x.Job.ID) := by rw [← hkeyms']
          _ = {r.Job.ID} + ↑(rs.map fun x => x.Job.ID) + ↑(bufKeys buf) := by abel
          _ = ↑(p.map ChunkJob.ID) + ↑(q.map ChunkJob.ID) := hperm'
      exact add_left_cancel h3
    rw [hrun, List.map_append, hout, ih q buf2 hwf2 hnd2 hndq hperm2 hnf2, hpq]

/-- C1: order preservation of the reorder stage.  For any arrival order of the
chunk-job results (any permutation of the jobs pushed with ids 0..n-1), the
sequence forwarded to the `orderedResults` channel is exactly the results in
ascending job id: the i-th value read has `Job.ID = i` for every
`i < part_count`. -/
theorem claim_C1 {ρ : Type} (jobs : List ChunkJob) (arrivals : List (ChunkJobResult ρ)) (n : Nat)
    (hjobs : jobs.map ChunkJob.ID = List.range n)
    (harr : (arrivals.map fun r => r.Job.ID).Perm (List.range n)) :
    (orderedResults jobs arrivals).map (fun r => r.Job.ID) = List.range n ∧
    ∀ i, i < n → ∃ r, (orderedResults jobs arrivals)[i]? = some r ∧ r.Job.ID = i := by
  have hmain : (orderedResults jobs arrivals).map (fun r => r.Job.ID) = jobs.map ChunkJob.ID := by
    apply reorderRun_spec
    · intro p hp
      exact absurd hp (List.not_mem_nil p)
    · exact List.nodup_nil
    · rw [hjobs]
      exact List.nodup_range n
    · show (↑(arrivals.map fun r => r.Job.ID) + ↑([] : List Nat) : Multiset Nat) =
        ↑(jobs.map ChunkJob.ID)
      rw [Multiset.coe_nil, add_zero, hjobs]
      exact Multiset.coe_eq_coe.mpr harr
    · intro j q' h
      rfl
  refine ⟨by rw [hmain, hjobs], ?_⟩
  intro i hi
  have hid : ((orderedResults jobs arrivals).map (fun r => r.Job.ID))[i]? = some i := by
    rw [hmain, hjobs]
    simp [List.getElem?_range hi]
  rw [List.getElem?_map] at hid
  rcases Option.map_eq_some'.mp hid with ⟨r, hr, hr2⟩
  exact ⟨r, hr, hr2⟩

/-- C1 witness: two jobs whose results arrive in reverse order are forwarded
in ascending id order. -/
theorem claim_C1_witness :
    (orderedResults
        [⟨0, ⟨[], [], [], 0, 0⟩, ⟨0, 0⟩⟩, ⟨1, ⟨[], [], [], 0, 0⟩, ⟨0, 0⟩⟩]
        [⟨⟨1, ⟨[], [], [], 0, 0⟩, ⟨0, 0⟩⟩, ()⟩, ⟨⟨0, ⟨[], [], [], 0, 0⟩, ⟨0, 0⟩⟩, ()⟩]).map
      (fun r => r.Job.ID) = List.range 2 ∧
    ∀ i, i < 2 → ∃ r,
      (orderedResults
        [⟨0, ⟨[], [], [], 0, 0⟩, ⟨0, 0⟩⟩, ⟨1, ⟨[], [], [], 0, 0⟩, ⟨0, 0⟩⟩]
        [⟨⟨1, ⟨[], [], [], 0, 0⟩, ⟨0, 0⟩⟩, ()⟩, ⟨⟨0, ⟨[], [], [], 0, 0⟩, ⟨0, 0⟩⟩, ()⟩])[i]? =
        some r ∧ r.Job.ID = i :=
  claim_C1
    [⟨0, ⟨[], [], [], 0, 0⟩, ⟨0, 0⟩⟩, ⟨1, ⟨[], [], [], 0, 0⟩, ⟨0, 0⟩⟩]
    [⟨⟨1, ⟨[], [], [], 0, 0⟩, ⟨0, 0⟩⟩, ()⟩, ⟨⟨0, ⟨[], [], [], 0, 0⟩, ⟨0, 0⟩⟩, ()⟩]
    2 (by decide) (by decide)

/-! ## Byte readers and the chunk codec: claim C7 -/

/-- A `bytes.Reader`/file reader: backing bytes plus a cursor. -/
structure ByteReader where
  data : List Nat
  pos : Nat
deriving DecidableEq

/-- The bytes still unread. -/
def ByteReader.remaining (r : ByteReader) : List Nat := r.data.drop r.pos

/-- Little-endian 32-bit value of a buffer's first four bytes (the fallback
for shorter buffers is unreachable: callers pass 4-byte buffers). -/
def le32 : List Nat → Nat
  | b0 :: b1 :: b2 :: b3 :: _ => b0 + 256 * b1 + 65536 * b2 + 16777216 * b3
  | _ => 0

/-- Little-endian 64-bit value of a buffer's first eight bytes. -/
def le64 : List Nat → Nat
  | b0 :: b1 :: b2 :: b3 :: b4 :: b5 :: b6 :: b7 :: _ =>
      b0 + 256 * b1 + 65536 * b2 + 16777216 * b3 + 4294967296 * b4 +
      1099511627776 * b5 + 281474976710656 * b6 + 72057594037927936 * b7
  | _ => 0

/-- `ChunkHeader` (chunk.go:43-53), 62 bytes on the wire. -/
structure ChunkHeader where
  Magic : Nat
  Version : Nat
  HeaderSize : Nat
  DataSizeCompressed : Nat
  GUID : List Nat
  RollingHash : Nat
  StoredAs : Nat
  SHAHash : List Nat
  HashType : Nat
deriving DecidableEq

/-- `readChunkHeader` (chunk.go:100-108): `binary.Read` fills the 62-byte
struct via `io.ReadFull`, erroring when fewer than 62 bytes remain, and
advances the reader past the header. -/
def readChunkHeader (r : ByteReader) : Except String (ChunkHeader × ByteReader) :=
  let avail := r.remaining
  if avail.length < 62 then .error "failed to read header"
  else
    .ok (⟨le32 avail, le32 (avail.drop 4), le32 (avail.drop 8), le32 (avail.drop 12),
      (avail.drop 16).take 16, le64 (avail.drop 32), avail.getD 40 0,
      (avail.drop 41).take 20, avail.getD 61 0⟩, ⟨r.data, r.pos + 62⟩)

/-- `parseChunk` (part_003:814-843).  `inflate` abstracts zlib
(`zlib.NewReader` + `ReadAll`); `none` covers both of its failure modes.
`stored-as 0` keeps the input reader (now past the header) with no kept
bytes; `stored-as 1` returns a fresh reader (`NewByteCloser`) over the
inflated remainder, which is also returned as the kept bytes; anything else
is an error. -/
def parseChunk (inflate : List Nat → Option (List Nat)) (r : ByteReader) :
    Except String (ByteReader × Option (List Nat)) :=
  match readChunkHeader r with
  | .error _ => .error "failed to read header"
  | .ok (header, r2) =>
    if header.StoredAs = 0 then .ok (r2, none)
    else if header.StoredAs = 1 then
      match inflate r2.remaining with
      | some chunkData => .ok (⟨chunkData, 0⟩, some chunkData)
      | none => .error "failed to decompress"
    else .error "got unknown chunk"

/-- C7: `parseChunk` behaviour by stored-as byte (byte 40 of the header).
With at least the 62 header bytes available: stored-as 0 returns the input
reader positioned immediately after the header and no kept bytes; stored-as 1
returns a fresh reader over the inflated remainder together with that buffer
as the kept bytes; every other stored-as value yields an error (and hence no
reader). -/
theorem claim_C7 (inflate : List Nat → Option (List Nat)) (data : List Nat) (pos : Nat)
    (hlen : 62 ≤ (data.drop pos).length) :
    ((data.drop pos).getD 40 0 = 0 →
      parseChunk inflate ⟨data, pos⟩ = .ok (⟨data, pos + 62⟩, none)) ∧
    (∀ d, (data.drop pos).getD 40 0 = 1 → inflate (data.drop (pos + 62)) = some d →
      parseChunk inflate ⟨data, pos⟩ = .ok (⟨d, 0⟩, some d)) ∧
    ((data.drop pos).getD 40 0 ≠ 0 → (data.drop pos).getD 40 0 ≠ 1 →
      ∃ e, parseChunk inflate ⟨data, pos⟩ = .error e) := by
  have hnotlt : ¬ data.length - pos < 62 := by
    rw [List.length_drop] at hlen
    omega
  have hsa : (data.drop pos).getD 40 0 = data[pos + 40]?.getD 0 := by
    rw [List.getD_eq_getElem?_getD, List.getElem?_drop]
  rw [hsa]
  refine ⟨?_, ?_, ?_⟩
  · intro h0
    simp [parseChunk, readChunkHeader, hnotlt, ByteReader.remaining, h0]
  · intro d h1 hinf
    simp [parseChunk, readChunkHeader, hnotlt, ByteReader.remaining, h1, hinf]
  · intro h0 h1
    simp [parseChunk, readChunkHeader, hnotlt, ByteReader.remaining, h0, h1]

/-- C7 witness: a 62-byte all-zero chunk (stored-as 0) parses to the input
reader positioned at offset 62 with no kept bytes. -/
theorem claim_C7_witness :
    62 ≤ ((List.replicate 62 0).drop 0).length ∧
    parseChunk (fun _ => none) ⟨List.replicate 62 0, 0⟩ =
      .ok (⟨List.replicate 62 0, 0 + 62⟩, none) :=
  ⟨by decide,
    (claim_C7 (fun _ => none) (List.replicate 62 0) 0 (by decide)).1 (by decide)⟩

/-! ## Manifest decoder: claims C3, C6, C10

`parseManifest` (catalog.go:161-351) dispatches on the first byte: `'{'`
selects the JSON path, anything else the binary path (header + optionally
zlib-compressed payload + SHA-1 check + body parse).  The binary reader
reuses one 4-byte scratch buffer for most integer reads; reads past the end
of the data fill only the available prefix and leave the rest of the buffer
as it was, which the `goRead` model reproduces. -/

/-- Go `Read` into a caller-supplied buffer: copies the available prefix,
keeps the buffer's old tail, and advances the cursor by the amount read. -/
def goRead (r : ByteReader) (buf : List Nat) : ByteReader × List Nat :=
  let avail := r.remaining
  let k := min buf.length avail.length
  (⟨r.data, r.pos + k⟩, avail.take k ++ buf.drop k)

/-- Go `bytes.Reader.ReadByte`: yields 0 (and an ignored `io.EOF`) at the
end of the data. -/
def goReadByte (r : ByteReader) : ByteReader × Nat :=
  match r.remaining with
  | [] => (r, 0)
  | b :: _ => (⟨r.data, r.pos + 1⟩, b)

/-- `Seek(off, io.SeekCurrent)` with the non-negative offsets the decoder
uses. -/
def goSeek (r : ByteReader) (off : Nat) : ByteReader := ⟨r.data, r.pos + off⟩

/-- `strconv.Itoa` / `strconv.FormatUint(..., 10)` on a non-negative value. -/
def goItoa (n : Nat) : Str := Nat.toDigits 10 n

/-- `readString` (catalog.go:353-366): 4-byte length (which counts a
trailing NUL), then the bytes, dropping that NUL; length 0 means empty.
Both buffers are freshly zeroed, so a short read leaves zero padding. -/
def readString (r : ByteReader) : ByteReader × Str :=
  let p := goRead r (List.replicate 4 0)
  let size := le32 p.2
  if size = 0 then (p.1, [])
  else
    let q := goRead p.1 (List.replicate size 0)
    (q.1, (q.2.take (size - 1)).map Char.ofNat)

/-- `count` consecutive `readString` calls. -/
def readStringsLoop : Nat → ByteReader → ByteReader × List Str
  | 0, r => (r, [])
  | n + 1, r =>
    let p := readString r
    let t := readStringsLoop n p.1
    (t.1, p.2 :: t.2)

/-- `count` consecutive reads into one shared block buffer (as the decoder's
per-array loops do), returning each iteration's buffer contents. -/
def readBlocks : Nat → ByteReader → List Nat → ByteReader × List Nat × List (List Nat)
  | 0, r, buf => (r, buf, [])
  | n + 1, r, buf =>
    let p := goRead r buf
    let t := readBlocks n p.1 p.2
    (t.1, t.2.1, p.2 :: t.2.2)

/-- `count` consecutive `ReadByte` calls (the data-group loop). -/
def readBytesLoop : Nat → ByteReader → ByteReader × List Nat
  | 0, r => (r, [])
  | n + 1, r =>
    let p := goReadByte r
    let t := readBytesLoop n p.1
    (t.1, p.2 :: t.2)

/-- Per-file install-tags loop (catalog.go:317-326): a tag count read into
the shared 4-byte buffer, then that many strings. -/
def readTagsLoop : Nat → ByteReader → List Nat → ByteReader × List Nat × List (List Str)
  | 0, r, buf => (r, buf, [])
  | n + 1, r, buf =>
    let p := goRead r buf
    let q := readStringsLoop (le32 p.2) p.1
    let t := readTagsLoop n q.1 p.2
    (t.1, t.2.1, q.2 :: t.2.2)

/-- `ManifestFileChunkPart` (catalog.go:79-86). -/
structure ManifestFileChunkPart where
  GUID : Str
  Offset : Str
  Size : Str
  OffsetInt : Nat
  SizeInt : Nat
deriving DecidableEq

/-- `ManifestFile` (catalog.go:89-94). -/
structure ManifestFile where
  FileName : Str
  FileHash : Str
  FileChunkParts : List ManifestFileChunkPart
  InstallTags : List Str
deriving DecidableEq

/-- `Manifest` (catalog.go:97-116).  The string maps are association lists
with newest-first entries (a Go map write shadows the previous value). -/
structure Manifest where
  ManifestFileVersion : Str
  BIsFileData : Bool
  AppID : Str
  AppNameString : Str
  BuildVersionString : Str
  LaunchExeString : Str
  LaunchCommand : Str
  PreReqIds : List Str
  PreReqName : Str
  PreReqPath : Str
  PreReqArgs : Str
  FileManifestList : List ManifestFile
  ChunkHashList : List (Str × Str)
  ChunkShaList : List (Str × Str)
  DataGroupList : List (Str × Str)
  ChunkFilesizeList : List (Str × Str)
  ChunkFilesizeListInt : List (Str × Nat)
deriving DecidableEq

/-- Go map read `m[k]` for a string-valued map: the zero value `""` when the
key is absent (also the behaviour of a `nil` map). -/
def mapGetStr (m : List (Str × Str)) (k : Str) : Str :=
  ((m.find? (fun p => p.1 == k)).map (fun p => p.2)).getD []

/-- The map built by a loop doing `m[ks[i]] = vs[i]` for `i` ascending:
later writes end up in front and shadow earlier ones. -/
def buildMap {α : Type} (ks : List Str) (vs : List α) : List (Str × α) :=
  (ks.zip vs).foldl (fun m kv => kv :: m) []

/-- The per-file parts loop body (catalog.go:335-347): skip 4 bytes, read the
16-byte GUID, then offset and size through the shared 4-byte buffer, keeping
both the packed-decimal string form and the u32 form. -/
def readPartsOne :
    Nat → ByteReader → List Nat → List Nat →
      ByteReader × List Nat × List Nat × List ManifestFileChunkPart
  | 0, r, buf, gbuf => (r, buf, gbuf, [])
  | n + 1, r, buf, gbuf =>
    let r1 := goSeek r 4
    let pg := goRead r1 gbuf
    let po := goRead pg.1 buf
    let ps := goRead po.1 po.2
    let part : ManifestFileChunkPart :=
      ⟨goToUpper (hexEncode pg.2), goItoa (le32 po.2), goItoa (le32 ps.2),
        le32 po.2, le32 ps.2⟩
    let t := readPartsOne n ps.1 ps.2 pg.2
    (t.1, t.2.1, t.2.2.1, part :: t.2.2.2)

/-- The outer parts loop (catalog.go:328-348): per file a part count read
into the shared buffer and a fresh 16-byte GUID buffer. -/
def readPartsLoop :
    Nat → ByteReader → List Nat → ByteReader × List Nat × List (List ManifestFileChunkPart)
  | 0, r, buf => (r, buf, [])
  | n + 1, r, buf =>
    let p := goRead r buf
    let q := readPartsOne (le32 p.2) p.1 p.2 (List.replicate 16 0)
    let t := readPartsLoop n q.1 q.2.1
    (t.1, t.2.1, q.2.2.2 :: t.2.2)

/-- Field-by-field assembly of `FileManifestList` from the four parallel
per-file arrays (all of length `file_count`). -/
def buildFiles :
    List Str → List Str → List (List Str) → List (List ManifestFileChunkPart) →
      List ManifestFile
  | n :: ns, h :: hs, t :: ts, p :: ps => ⟨n, h, p, t⟩ :: buildFiles ns hs ts ps
  | _, _, _, _ => []

/-- The body parse (catalog.go:230-350) over the verified decompressed bytes.
`buffer0` is the decoder's shared 4-byte scratch buffer as left by the
header parse.  The only failure is the guarded prereq-ids array
(catalog.go:245-249); `ChunkFilesizeList` is never assigned (it stays the
`nil` map): per-chunk sizes go to `ChunkFilesizeListInt` only. -/
def parseManifestBody (buffer0 : List Nat) (body : List Nat) : Except String Manifest :=
  let r0 := goSeek ⟨body, 0⟩ 14
  let a1 := readString r0
  let a2 := readString a1.1
  let a3 := readString a2.1
  let a4 := readString a3.1
  let z := goRead a4.1 buffer0
  if le32 z.2 ≠ 0 then .error "fixme: read arrays"
  else
    let b1 := readString z.1
    let b2 := readString b1.1
    let b3 := readString b2.1
    let rc := goRead (goSeek b3.1 5) z.2
    let chunkSize := le32 rc.2
    let gblocks := readBlocks chunkSize rc.1 (List.replicate 16 0)
    let guids := gblocks.2.2.map (fun b => goToUpper (hexEncode b))
    let hblocks := readBlocks chunkSize gblocks.1 (List.replicate 8 0)
    let sblocks := readBlocks chunkSize hblocks.1 (List.replicate 20 0)
    let dgroups := readBytesLoop chunkSize sblocks.1
    let rskip := goSeek dgroups.1 (4 * chunkSize)
    let fsblocks := readBlocks chunkSize rskip (List.replicate 8 0)
    let rf := goRead (goSeek fsblocks.1 5) rc.2
    let fileSize := le32 rf.2
    let names := readStringsLoop fileSize rf.1
    let discard := readStringsLoop fileSize names.1
    let fhashes := readBlocks fileSize discard.1 sblocks.2.1
    let rskip2 := goSeek fhashes.1 fileSize
    let tags := readTagsLoop fileSize rskip2 rf.2
    let parts := readPartsLoop fileSize tags.1 tags.2.1
    .ok
      { ManifestFileVersion := [], BIsFileData := false, AppID := []
        AppNameString := a1.2, BuildVersionString := a2.2
        LaunchExeString := a3.2, LaunchCommand := a4.2
        PreReqIds := [], PreReqName := b1.2, PreReqPath := b2.2, PreReqArgs := b3.2
        FileManifestList :=
          buildFiles names.2 (fhashes.2.2.map hexEncode) tags.2.2 parts.2.2
        ChunkHashList := buildMap guids (hblocks.2.2.map (fun b => goToUpper (hexEncode b)))
        ChunkShaList := buildMap guids (sblocks.2.2.map hexEncode)
        DataGroupList := buildMap guids (dgroups.2.map goItoa)
        ChunkFilesizeList := []
        ChunkFilesizeListInt := buildMap guids (fsblocks.2.2.map le64) }

/-- Length and checksum gate shared by both decompression paths
(catalog.go:218-228): the decompressed payload must have exactly
`uncompressed size` bytes and its SHA-1 must equal the header checksum. -/
def manifestTail (sha1 : List Nat → List Nat) (uncompressedSize : Nat)
    (checksum : List Nat) (buf : List Nat) (decompressed : List Nat) :
    Except String (List Nat × List Nat) :=
  if decompressed.length ≠ uncompressedSize then .error "invalid data"
  else if sha1 decompressed ≠ checksum then .error "checksum mismatch"
  else .ok (decompressed, buf)

/-- The binary-manifest header stage (catalog.go:168-228): magic, header
size, uncompressed size, compressed size, 20-byte checksum, stored-as byte
and a discarded version field, reusing one 4-byte buffer; then the header
and size checks, decompression (`inflate` abstracts `zlib.NewReader` +
`ReadAll`, whose errors the code ignores), and `manifestTail`.  On success
it yields the decompressed body and the scratch buffer for the body parse. -/
def parseManifestStage1 (inflate : List Nat → List Nat) (sha1 : List Nat → List Nat)
    (data : List Nat) : Except String (List Nat × List Nat) :=
  let p1 := goRead ⟨data, 0⟩ (List.replicate 4 0)
  if le32 p1.2 ≠ 0x44BEC00C then .error "read invalid magic"
  else
    let p2 := goRead p1.1 p1.2
    let headerSize := le32 p2.2
    let p3 := goRead p2.1 p2.2
    let uncompressedSize := le32 p3.2
    let p4 := goRead p3.1 p3.2
    let compressedSize := le32 p4.2
    let p5 := goRead p4.1 (List.replicate 20 0)
    let p6 := goReadByte p5.1
    let p7 := goRead p6.1 p4.2
    if p7.1.pos ≠ headerSize then .error "invalid header"
    else if data.length - p7.1.pos ≠ compressedSize then .error "invalid header"
    else if p6.2 = 0 then
      manifestTail sha1 uncompressedSize p5.2 p7.2
        (goRead p7.1 (List.replicate uncompressedSize 0)).2
    else if p6.2 = 1 then
      manifestTail sha1 uncompressedSize p5.2 p7.2 (inflate p7.1.remaining)
    else .error "invalid format"

/-- `parseManifest` (catalog.go:161-351).  An empty buffer panics on
`data[0]`.  On the JSON path the code calls `json.Unmarshal(data, manifest)`
with `manifest` still the nil named-return pointer, and `json.Unmarshal` is
specified to return `InvalidUnmarshalError` (without decoding anything) when
handed a nil pointer, so that path always fails. -/
def parseManifest (inflate : List Nat → List Nat) (sha1 : List Nat → List Nat)
    (data : List Nat) : Except String Manifest :=
  match data with
  | [] => .error "panic: index out of range"
  | d0 :: _ =>
    if d0 = 123 then .error "json: Unmarshal(nil *Manifest)"
    else
      match parseManifestStage1 inflate sha1 data with
      | .error e => .error e
      | .ok (decompressed, buf) => parseManifestBody buf decompressed

/-- C3 (code bug): the JSON path of `parseManifest` never succeeds.  The code
unmarshals into the nil named-return pointer, so for every buffer whose first
byte is `'{'` — here the well-formed JSON manifest `"{}"` (bytes 123, 125) —
it returns a nil manifest and an `InvalidUnmarshalError` instead of the
claimed populated `Manifest` with no error. -/
theorem claim_C3 (inflate sha1 : List Nat → List Nat) :
    parseManifest inflate sha1 [123, 125] = .error "json: Unmarshal(nil *Manifest)" := rfl

/-- The body parse never writes `ChunkFilesizeList`: on success the field is
the empty (nil) map. -/
theorem parseManifestBody_filesizeList (buf body : List Nat) (m : Manifest)
    (h : parseManifestBody buf body = .ok m) : m.ChunkFilesizeList = [] := by
  simp only [parseManifestBody] at h
  split at h
  · cases h
  · cases h
    rfl

/-- C10: every `Manifest` produced by `parseManifest` (its binary path — the
JSON path never succeeds) has an empty `ChunkFilesizeList` string map, so any
lookup in it yields the empty string, notably the `ChunkFilesizeList[guid]`
argument main passes to `NewChunk`. -/
theorem claim_C10 (inflate sha1 : List Nat → List Nat) (data : List Nat) (m : Manifest)
    (h : parseManifest inflate sha1 data = .ok m) :
    m.ChunkFilesizeList = [] ∧ ∀ g, mapGetStr m.ChunkFilesizeList g = [] := by
  have hempty : m.ChunkFilesizeList = [] := by
    unfold parseManifest at h
    rcases data with _ | ⟨d0, rest⟩
    · cases h
    · simp only [] at h
      split_ifs at h with hj
      rcases hs : parseManifestStage1 inflate sha1 (d0 :: rest) with e | ⟨dec, buf⟩ <;>
        simp only [hs] at h
      · cases h
      · exact parseManifestBody_filesizeList buf dec m h
  refine ⟨hempty, ?_⟩
  intro g
  rw [hempty]
  rfl

/-- The 105-byte all-zero binary manifest used as the C10 witness: valid
header (header size 41, sizes 64, stored-as 0) and a 64-zero body that the
body parser consumes exactly. -/
def witnessManifestBytes : List Nat :=
  [12, 192, 190, 68, 41, 0, 0, 0, 64, 0, 0, 0, 64, 0, 0, 0] ++
    List.replicate 20 0 ++ [0] ++ List.replicate 4 0 ++ List.replicate 64 0

/-- The manifest that `witnessManifestBytes` parses to. -/
def witnessManifest : Manifest :=
  ⟨[], false, [], [], [], [], [], [], [], [], [], [], [], [], [], [], []⟩

theorem claim_C10_witness :
    parseManifest (fun _ => []) (fun _ => List.replicate 20 0) witnessManifestBytes =
      .ok witnessManifest ∧
    mapGetStr witnessManifest.ChunkFilesizeList ['X'] = [] :=
  ⟨rfl,
    (claim_C10 (fun _ => []) (fun _ => List.replicate 20 0) witnessManifestBytes
      witnessManifest rfl).2 ['X']⟩

/-- A read whose buffer fits inside the remaining data is a full read. -/
theorem goRead_full (data : List Nat) (pos : Nat) (buf : List Nat)
    (h : pos + buf.length ≤ data.length) :
    goRead ⟨data, pos⟩ buf = (⟨data, pos + buf.length⟩, (data.drop pos).take buf.length) := by
  unfold goRead ByteReader.remaining
  have hlen : (data.drop pos).length = data.length - pos := by
    simp
  have hk : min buf.length (data.drop pos).length = buf.length := by
    rw [hlen]
    omega
  simp only [hk, List.drop_length, List.append_nil]

/-- `le32` only inspects the first four bytes. -/
theorem le32_take4 (l : List Nat) : le32 (l.take 4) = le32 l := by
  rcases l with _ | ⟨a, _ | ⟨b, _ | ⟨c, _ | ⟨d, t⟩⟩⟩⟩ <;> rfl

/-- Evaluation of the header stage on any buffer of at least 41 bytes whose
magic, header-size and compressed-size checks pass: what remains is the
stored-as dispatch into the shared length/checksum gate. -/
theorem parseManifestStage1_eval (inflate sha1 : List Nat → List Nat) (data : List Nat)
    (hlen : 41 ≤ data.length)
    (hmagic : le32 data = 0x44BEC00C)
    (hheader : le32 (data.drop 4) = 41)
    (hcomp : le32 (data.drop 12) = data.length - 41) :
    parseManifestStage1 inflate sha1 data =
      if data.getD 36 0 = 0 then
        manifestTail sha1 (le32 (data.drop 8)) ((data.drop 16).take 20) ((data.drop 37).take 4)
          ((data.drop 41).take (le32 (data.drop 8)) ++
            List.replicate (le32 (data.drop 8) - (data.length - 41)) 0)
      else if data.getD 36 0 = 1 then
        manifestTail sha1 (le32 (data.drop 8)) ((data.drop 16).take 20) ((data.drop 37).take 4)
          (inflate (data.drop 41))
      else .error "invalid format" := by
  have h36 : 36 < data.length := by omega
  have h1 : goRead ⟨data, 0⟩ (List.replicate 4 0) = (⟨data, 4⟩, data.take 4) := by
    have := goRead_full data 0 (List.replicate 4 0) (by simp; omega)
    simpa using this
  have hlt4 : (data.take 4).length = 4 := by
    simp
    omega
  have h2 : goRead ⟨data, 4⟩ (data.take 4) = (⟨data, 8⟩, (data.drop 4).take 4) := by
    have := goRead_full data 4 (data.take 4) (by rw [hlt4]; omega)
    rw [hlt4] at this
    simpa using this
  have hld4 : ∀ p : Nat, p + 4 ≤ data.length → ((data.drop p).take 4).length = 4 := by
    intro p hp
    simp
    omega
  have h3 : goRead ⟨data, 8⟩ ((data.drop 4).take 4) = (⟨data, 12⟩, (data.drop 8).take 4) := by
    have := goRead_full data 8 ((data.drop 4).take 4) (by rw [hld4 4 (by omega)]; omega)
    rw [hld4 4 (by omega)] at this
    simpa using this
  have h4 : goRead ⟨data, 12⟩ ((data.drop 8).take 4) = (⟨data, 16⟩, (data.drop 12).take 4) := by
    have := goRead_full data 12 ((data.drop 8).take 4) (by rw [hld4 8 (by omega)]; omega)
    rw [hld4 8 (by omega)] at this
    simpa using this
  have h5 : goRead ⟨data, 16⟩ (List.replicate 20 0) = (⟨data, 36⟩, (data.drop 16).take 20) := by
    have := goRead_full data 16 (List.replicate 20 0) (by simp; omega)
    simpa using this
  have h6 : goReadByte ⟨data, 36⟩ = (⟨data, 37⟩, data.get ⟨36, h36⟩) := by
    unfold goReadByte ByteReader.remaining
    rw [List.drop_eq_getElem_cons h36]
    simp [List.get_eq_getElem]
  have h7 : goRead ⟨data, 37⟩ ((data.drop 12).take 4) = (⟨data, 41⟩, (data.drop 37).take 4) := by
    have := goRead_full data 37 ((data.drop 12).take 4) (by rw [hld4 12 (by omega)]; omega)
    rw [hld4 12 (by omega)] at this
    simpa using this
  have hgd : data.getD 36 0 = data.get ⟨36, h36⟩ := by
    rw [List.getD_eq_getElem?_getD, List.getElem?_eq_getElem h36]
    simp [List.get_eq_getElem]
  have hmagic' : le32 (data.take 4) = 0x44BEC00C := by rw [le32_take4]; exact hmagic
  have hheader' : le32 ((data.drop 4).take 4) = 41 := by rw [le32_take4]; exact hheader
  have hcomp' : le32 ((data.drop 12).take 4) = data.length - 41 := by
    rw [le32_take4]; exact hcomp
  have hU : le32 ((data.drop 8).take 4) = le32 (data.drop 8) := le32_take4 _
  simp only [parseManifestStage1, h1, h2, h3, h4, h5, h6, h7, hmagic', hheader', hcomp', hU, hgd]
  simp only [ne_eq, not_true_eq_false, if_false, ite_false, ite_true, not_false_eq_true,
    if_neg, if_pos, sub_self]
  have hcopy : (goRead ⟨data, 41⟩ (List.replicate (le32 (data.drop 8)) 0)).2 =
      (data.drop 41).take (le32 (data.drop 8)) ++
        List.replicate (le32 (data.drop 8) - (data.length - 41)) 0 := by
    unfold goRead ByteReader.remaining
    have hL : (data.drop 41).length = data.length - 41 := by simp
    have hmin : min (List.replicate (le32 (data.drop 8)) 0).length (data.drop 41).length =
        min (le32 (data.drop 8)) (data.length - 41) := by
      rw [List.length_replicate, hL]
    simp only [hmin]
    have htake : (data.drop 41).take (min (le32 (data.drop 8)) (data.length - 41)) =
        (data.drop 41).take (le32 (data.drop 8)) := by
      rcases Nat.le_total (le32 (data.drop 8)) (data.length - 41) with hle | hle
      · rw [Nat.min_eq_left hle]
      · rw [Nat.min_eq_right hle]
        rw [← hL, List.take_length, List.take_of_length_le]
        rw [hL]
        exact hle
    have hdropRep : (List.replicate (le32 (data.drop 8)) 0).drop
        (min (le32 (data.drop 8)) (data.length - 41)) =
        List.replicate (le32 (data.drop 8) - (data.length - 41)) 0 := by
      rw [List.drop_replicate]
      congr 1
      omega
    rw [htake, hdropRep]
  rw [hcopy]
  simp only [ByteReader.remaining]

/-- C6: binary-manifest decompression and checksum behaviour when the header
checks pass (at least 41 bytes; magic, header-size and compressed-size checks
hold).  Writing `U` for the uncompressed size, `checksum` for the 20-byte
header checksum and `payload` for the bytes after the header: stored-as 1
inflates the payload and errors unless the result has exactly `U` bytes;
stored-as 0 copies `U` bytes (zero-padded if the payload is shorter, so the
buffer always has `U` bytes); any other stored-as value is an error; the
SHA-1 of the decompressed bytes is compared with the checksum, a mismatch
errors, and the stage succeeds only when it matches. -/
theorem claim_C6 (inflate sha1 : List Nat → List Nat) (data : List Nat)
    (hlen : 41 ≤ data.length)
    (hmagic : le32 data = 0x44BEC00C)
    (hheader : le32 (data.drop 4) = 41)
    (hcomp : le32 (data.drop 12) = data.length - 41) :
    (data.getD 36 0 = 1 →
      ((inflate (data.drop 41)).length ≠ le32 (data.drop 8) →
        parseManifestStage1 inflate sha1 data = .error "invalid data") ∧
      ((inflate (data.drop 41)).length = le32 (data.drop 8) →
        sha1 (inflate (data.drop 41)) ≠ (data.drop 16).take 20 →
        parseManifestStage1 inflate sha1 data = .error "checksum mismatch") ∧
      ((inflate (data.drop 41)).length = le32 (data.drop 8) →
        sha1 (inflate (data.drop 41)) = (data.drop 16).take 20 →
        parseManifestStage1 inflate sha1 data =
          .ok (inflate (data.drop 41), (data.drop 37).take 4))) ∧
    (data.getD 36 0 = 0 →
      ((data.drop 41).take (le32 (data.drop 8)) ++
          List.replicate (le32 (data.drop 8) - (data.length - 41)) 0).length =
        le32 (data.drop 8) ∧
      (sha1 ((data.drop 41).take (le32 (data.drop 8)) ++
          List.replicate (le32 (data.drop 8) - (data.length - 41)) 0) =
          (data.drop 16).take 20 →
        parseManifestStage1 inflate sha1 data =
          .ok ((data.drop 41).take (le32 (data.drop 8)) ++
            List.replicate (le32 (data.drop 8) - (data.length - 41)) 0,
            (data.drop 37).take 4)) ∧
      (sha1 ((data.drop 41).take (le32 (data.drop 8)) ++
          List.replicate (le32 (data.drop 8) - (data.length - 41)) 0) ≠
          (data.drop 16).take 20 →
        parseManifestStage1 inflate sha1 data = .error "checksum mismatch")) ∧
    (data.getD 36 0 ≠ 0 → data.getD 36 0 ≠ 1 →
      parseManifestStage1 inflate sha1 data = .error "invalid format") ∧
    (∀ dec buf, parseManifestStage1 inflate sha1 data = .ok (dec, buf) →
      dec.length = le32 (data.drop 8) ∧ sha1 dec = (data.drop 16).take 20) := by
  have heval := parseManifestStage1_eval inflate sha1 data hlen hmagic hheader hcomp
  have hlen0 : ((data.drop 41).take (le32 (data.drop 8)) ++
      List.replicate (le32 (data.drop 8) - (data.length - 41)) 0).length =
      le32 (data.drop 8) := by
    simp
    omega
  refine ⟨?_, ?_, ?_, ?_⟩
  · intro h1
    have h10 : ¬ data.getD 36 0 = 0 := by omega
    rw [heval, if_neg h10, if_pos h1]
    refine ⟨?_, ?_, ?_⟩
    · intro hIL
      unfold manifestTail
      rw [if_pos hIL]
    · intro hIL hsha
      unfold manifestTail
      rw [if_neg (by simpa using hIL), if_pos hsha]
    · intro hIL hsha
      unfold manifestTail
      rw [if_neg (by simpa using hIL), if_neg (by simpa using hsha)]
  · intro h0
    rw [heval, if_pos h0]
    refine ⟨hlen0, ?_, ?_⟩
    · intro hsha
      unfold manifestTail
      rw [if_neg (by simpa using hlen0), if_neg (by simpa using hsha)]
    · intro hsha
      unfold manifestTail
      rw [if_neg (by simpa using hlen0), if_pos hsha]
  · intro h0 h1
    rw [heval, if_neg h0, if_neg h1]
  · intro dec buf hok
    rw [heval] at hok
    split_ifs at hok <;> unfold manifestTail at hok <;> split_ifs at hok with hL hS
    · cases hok
      exact ⟨by simpa using hL, by simpa using hS⟩
    · cases hok
      exact ⟨by simpa using hL, by simpa using hS⟩

/-- C6 witness: the stage at the concrete 105-byte stored-as-0 manifest with
a matching checksum succeeds with the 64 copied (all-zero) payload bytes. -/
theorem claim_C6_witness :
    parseManifestStage1 (fun _ => []) (fun _ => List.replicate 20 0) witnessManifestBytes =
      .ok ((witnessManifestBytes.drop 41).take (le32 (witnessManifestBytes.drop 8)) ++
        List.replicate
          (le32 (witnessManifestBytes.drop 8) - (witnessManifestBytes.length - 41)) 0,
        (witnessManifestBytes.drop 37).take 4) :=
  ((claim_C6 (fun _ => []) (fun _ => List.replicate 20 0) witnessManifestBytes
      (by decide) (by decide) (by decide) (by decide)).2.1 (by decide)).2.1 (by decide)

/-! ## File integrity checker: claim C9 -/

/-- One hex digit's value (Go `encoding/hex` accepts 0-9, a-f, A-F). -/
def hexVal (c : Char) : Option Nat :=
  if 48 ≤ c.toNat ∧ c.toNat ≤ 57 then some (c.toNat - 48)
  else if 97 ≤ c.toNat ∧ c.toNat ≤ 102 then some (c.toNat - 87)
  else if 65 ≤ c.toNat ∧ c.toNat ≤ 70 then some (c.toNat - 55)
  else none

/-- `hex.DecodeString` with the error discarded, as `checkFile` uses it: the
bytes decoded before the first bad or incomplete pair. -/
def hexDecodePartial : Str → List Nat
  | c1 :: c2 :: rest =>
    match hexVal c1, hexVal c2 with
    | some hi, some lo => (16 * hi + lo) :: hexDecodePartial rest
    | _, _ => []
  | _ => []

/-- The expected-hash computation of `checkFile` (part_003:774-779): a
40-character `FileHash` is hex-decoded (error ignored), anything else goes
through `readPackedData` (whose nil slice compares like an empty hash and
whose panic aborts, `none`). -/
def expectedFileHash (file : ManifestFile) : Option (List Nat) :=
  if file.FileHash.length = 40 then some (hexDecodePartial file.FileHash)
  else
    match readPackedData file.FileHash with
    | .ok bs => some bs
    | .nilSlice => some []
    | .panicked => none

/-- The part-size total of `checkFile` (part_003:782-785): a `uint32`
accumulator, so each addition wraps modulo 2^32; a malformed packed size
panics (`none`). -/
def sumSizes (parts : List ManifestFileChunkPart) : Option Nat :=
  parts.foldl
    (fun acc p =>
      match acc, readPackedUint32 p.Size with
      | some a, some s => some ((a + s) % 4294967296)
      | _, _ => none)
    (some 0)

/-- `checkFile` (part_003:772-802) on in-memory file contents: decode the
expected hash, total the part sizes as `uint32`, compare against the on-disk
size truncated to `uint32` (`uint32(fi.Size())`), and only then compare the
SHA-1 of the contents. -/
def checkFile (sha1 : List Nat → List Nat) (contents : List Nat) (file : ManifestFile) :
    Option Bool :=
  match expectedFileHash file with
  | none => none
  | some hash =>
    match sumSizes file.FileChunkParts with
    | none => none
    | some total =>
      if total ≠ contents.length % 4294967296 then some false
      else some (sha1 contents == hash)

/-- C9: `checkFile` accepts (returns `true` with no error) exactly when the
`uint32`-wrapped sum of the part sizes equals the file length truncated to
`uint32` and the SHA-1 digest equals the expected hash; whenever the lengths
agree modulo 2^32 the size gate passes and the result is just the hash
comparison, so two sizes differing by a multiple of 2^32 pass the gate. -/
theorem claim_C9 (sha1 : List Nat → List Nat) (contents : List Nat) (file : ManifestFile)
    (h : List Nat) (S : Nat)
    (hh : expectedFileHash file = some h) (hs : sumSizes file.FileChunkParts = some S) :
    (checkFile sha1 contents file = some true ↔
      (S = contents.length % 4294967296 ∧ sha1 contents = h)) ∧
    (S = contents.length % 4294967296 →
      checkFile sha1 contents file = some (sha1 contents == h)) := by
  have hcf : checkFile sha1 contents file =
      if S ≠ contents.length % 4294967296 then some false
      else some (sha1 contents == h) := by
    unfold checkFile
    rw [hh, hs]
  rw [hcf]
  constructor
  · by_cases hne : S = contents.length % 4294967296
    · rw [if_neg (by simpa using hne)]
      simp [hne]
    · rw [if_pos (by simpa using hne)]
      simp [hne]
  · intro heq
    rw [if_neg (by simpa using heq)]

/-- C9 witness: one part of packed size 5 and matching (empty) hash accepts a
5-byte file. -/
theorem claim_C9_witness :
    checkFile (fun _ => []) [1, 2, 3, 4, 5]
      ⟨[], [], [⟨[], [], "005000000000".toList, 0, 5⟩], []⟩ = some true :=
  (claim_C9 (fun _ => []) [1, 2, 3, 4, 5]
      ⟨[], [], [⟨[], [], "005000000000".toList, 0, 5⟩], []⟩ [] 5
      (by decide) (by decide)).1.mpr ⟨by decide, rfl⟩

end Splash
